import Mathlib

/-!
Verification development for the S3 client adapter (cmd/client-s3.go).

Strings from the Go source are modelled as lists of characters (`GoStr`),
so that Go byte/char indexing, `strings.Index`, `strings.SplitN`,
`strings.HasSuffix`, `filepath.Match` and `filepath.Join`/`Clean` can be
given executable, structurally recursive definitions that the kernel can
evaluate on concrete inputs.

The channel-based streaming routines (`listInRoutine`,
`listRecursiveInRoutine`) are modelled as pure functions from the backend
responses (given as explicit parameters) to the finite list of items sent
on the content channel before the channel is closed; an early `return` in
the Go routine therefore shows up as the end of the result list.
-/

set_option maxRecDepth 10000

deriving instance DecidableEq for Except

/-- Go strings, modelled as lists of characters. -/
abbrev GoStr := List Char

/-- Conversion from a Lean string literal to a `GoStr`. -/
def gs (s : String) : GoStr := s.toList

/-- Go `strings.Index`: position of the first occurrence of `sub` in `s`,
`none` when `sub` does not occur (Go returns -1). -/
def goIndex (sub : GoStr) : GoStr → Option Nat
  | [] => if sub.isPrefixOf [] then some 0 else none
  | c :: rest =>
    if sub.isPrefixOf (c :: rest) then some 0
    else (goIndex sub rest).map (· + 1)

/-- Go `strings.Contains`. -/
def goContains (sub s : GoStr) : Bool := (goIndex sub s).isSome

/-- Go `strings.HasSuffix`. -/
def goHasSuffix (s sfx : GoStr) : Bool := sfx.isSuffixOf s

/-- Split off everything before and after the first occurrence of the
character `sep`; `none` when `sep` does not occur. -/
def splitFirst (sep : Char) : GoStr → Option (GoStr × GoStr)
  | [] => none
  | c :: cs =>
    if c = sep then some ([], cs)
    else
      match splitFirst sep cs with
      | none => none
      | some (a, b) => some (c :: a, b)

/-- Go `strings.SplitN(s, string(sep), n)` for a one-character separator. -/
def goSplitN (sep : Char) : Nat → GoStr → List GoStr
  | 0, _ => []
  | 1, s => [s]
  | n + 2, s =>
    match splitFirst sep s with
    | none => [s]
    | some (a, rest) => a :: goSplitN sep (n + 1) rest

/-- Go `strings.TrimRight(s, string(sep))` for a one-character cutset:
drop all trailing occurrences of `sep`. -/
def goTrimRight (s : GoStr) (sep : Char) : GoStr :=
  ((s.reverse.dropWhile (· = sep))).reverse

/-- Whitespace class used by Go `strings.TrimSpace` (`unicode.IsSpace`),
restricted to the characters relevant for Latin-1 text. -/
def goIsSpace (ch : Char) : Bool :=
  ch = ' ' || ch = '\t' || ch = '\n' || ch = '\r' ||
  ch = '\x0b' || ch = '\x0c' || ch = '\u0085' || ch = ' '

/-- Go `strings.TrimSpace`. -/
def goTrimSpace (s : GoStr) : GoStr :=
  ((s.dropWhile goIsSpace).reverse.dropWhile goIsSpace).reverse

/-! ### Go `path/filepath` glob matching (`filepath.Match`)

Only the constructs actually present in the two provider patterns of the
source are modelled: literal characters and `*` (which matches any
possibly empty run of non-separator characters, the separator being `/`
on the platform the source targets). -/

/-- Does `f` accept some suffix of the input reachable by consuming
non-`/` characters from the front? This is the search performed by a `*`
wildcard. -/
def anySfx (f : GoStr → Bool) : GoStr → Bool
  | [] => f []
  | c :: cs => f (c :: cs) || (c ≠ '/' && anySfx f cs)

/-- Go `filepath.Match` for patterns built from literal characters and
`*` wildcards only. -/
def globMatch : GoStr → GoStr → Bool
  | [], s => s.isEmpty
  | c :: ps, s =>
    if c = '*' then anySfx (globMatch ps) s
    else
      match s with
      | [] => false
      | d :: ds => c = d && globMatch ps ds

/-- Source `isAmazon`: `filepath.Match("*.s3*.amazonaws.com", host)`. -/
def isAmazon (host : GoStr) : Bool := globMatch (gs "*.s3*.amazonaws.com") host

/-- Source `isGoogle`: `filepath.Match("*.storage.googleapis.com", host)`. -/
def isGoogle (host : GoStr) : Bool := globMatch (gs "*.storage.googleapis.com") host

/-- Source `isVirtualHostStyle`. -/
def isVirtualHostStyle (host : GoStr) : Bool := isAmazon host || isGoogle host

/-! ### Client model -/

/-- The fields of `clientURL` that the resolver and the listing engine
read: host, path and the separator character. -/
structure ClientURL where
  host : GoStr
  path : GoStr
  sep : Char
deriving DecidableEq

/-- The fields of `s3Client` relevant to address resolution and listing:
the parsed target URL and the virtual-host-style flag. -/
structure S3Client where
  targetURL : ClientURL
  virtualStyle : Bool
deriving DecidableEq

/-- Client construction as performed by the factory: the virtual-style
flag is computed from the host by `isVirtualHostStyle`. -/
def mkS3Client (u : ClientURL) : S3Client := ⟨u, isVirtualHostStyle u.host⟩

/-- Source `url2BucketAndObject`: derive the (bucket, object) pair from
the target URL. For a virtual-host-style client the bucket is recovered
from the host by searching for the provider marker (first `s3`, then
`storage.googleapis`) and, when the marker index is positive, the
effective path becomes separator + bucket + original path; the effective
path is then split on the separator into at most three fields. -/
def url2BucketAndObject (c : S3Client) : GoStr × GoStr :=
  let path :=
    if c.virtualStyle then
      let hostIndex : Int :=
        match goIndex (gs "s3") c.targetURL.host with
        | some i => (i : Int)
        | none =>
          match goIndex (gs "storage.googleapis") c.targetURL.host with
          | some j => (j : Int)
          | none => -1
      if 0 < hostIndex then
        let bucket := c.targetURL.host.take (hostIndex - 1).toNat
        [c.targetURL.sep] ++ bucket ++ c.targetURL.path
      else c.targetURL.path
    else c.targetURL.path
  match goSplitN c.targetURL.sep 3 path with
  | [] => ([], [])
  | [_] => ([], [])
  | [_, b] => (b, [])
  | _ :: b :: o :: _ => (b, o)

example : url2BucketAndObject ⟨⟨gs "play.minio.io", gs "/abc/x/y", '/'⟩, false⟩
    = (gs "abc", gs "x/y") := by decide

example : gs "ab" = ['a', 'b'] := rfl

example : isAmazon (gs "bucket.s3.amazonaws.com") = true := by decide

example : isAmazon (gs "s3.amazonaws.com") = false := by decide

example : isVirtualHostStyle (gs "mybucket.storage.googleapis.com") = true := by decide

example :
    url2BucketAndObject (mkS3Client ⟨gs "bucket.s3.amazonaws.com", gs "/obj/x", '/'⟩)
    = (gs "bucket", gs "obj/x") := by decide

/-! ### Go `path/filepath` Join and Clean (unix rules) -/

/-- One step of the `filepath.Clean` element processing, operating on a
reversed stack of kept path elements. Empty and `.` elements are
dropped; `..` pops the previous element unless the previous element is
itself `..`, is dropped at the root of a rooted path, and is kept in a
relative path with nothing left to pop. -/
def cleanStep (rooted : Bool) (acc : List GoStr) (seg : GoStr) : List GoStr :=
  if seg = [] ∨ seg = ['.'] then acc
  else if seg = ['.', '.'] then
    match acc with
    | t :: rest => if t = ['.', '.'] then seg :: acc else rest
    | [] => if rooted then [] else [seg]
  else seg :: acc

/-- Split a path into all its `/`-separated segments. -/
def splitAll (sep : Char) : GoStr → List GoStr
  | [] => [[]]
  | c :: cs =>
    if c = sep then [] :: splitAll sep cs
    else
      match splitAll sep cs with
      | [] => [[c]]
      | a :: rest => (c :: a) :: rest

/-- Go `filepath.Clean` for `/`-separated paths. -/
def goClean (p : GoStr) : GoStr :=
  if p = [] then ['.']
  else
    let rooted := p.head? = some '/'
    let segs := ((splitAll '/' p).foldl (cleanStep rooted) []).reverse
    if rooted then
      '/' :: (List.intercalate (gs "/") segs)
    else if segs = [] then ['.']
    else List.intercalate (gs "/") segs

/-- Go `filepath.Join`: drop leading empty elements, join the rest with
`/`, and clean the result; all-empty input yields the empty path. -/
def goJoin (elems : List GoStr) : GoStr :=
  match elems.dropWhile (· = []) with
  | [] => []
  | rest => goClean (List.intercalate (gs "/") rest)

example : goJoin [gs "/", gs "abc", gs "dir/b"] = gs "/abc/dir/b" := by decide
example : goJoin [gs "/", gs "abc", gs "dir/"] = gs "/abc/dir" := by decide
example : goJoin [gs "/x", gs "abc"] = gs "/x/abc" := by decide
example : goClean (gs "a/../../b") = gs "../b" := by decide
example : goClean (gs "/a/../../b") = gs "/b" := by decide

/-! ### Content model

`clientContent` field values as produced by the listing engine. Items
built by the Go code as `&clientContent{Err: ...}` carry the zero values
of all the remaining fields, reproduced here by the field defaults. The
wall clock read by `time.Now()` is passed in as an explicit `now`
parameter; backend-reported times are plain naturals. -/

/-- Backend (minio SDK) errors, treated as opaque tokens. -/
abbrev BErr := Nat

/-- Domain errors of the adapter relevant to the modelled operations. -/
inductive PErr where
  | bucketNameEmpty
  | bucketDoesNotExist (bucket : GoStr)
  | objectMissing
  | objectOnGlacier (key : GoStr)
  | invalidArgument
  | errBucketName (msg : String)
  | backend (e : BErr)
deriving DecidableEq

/-- The `os.FileMode` values the listing engine assigns to entries. -/
inductive CType where
  | zero
  | dir
  | temp
  | file0664
deriving DecidableEq

/-- One item sent on the content channel (`clientContent`). -/
structure ClientContent where
  urlPath : GoStr := []
  size : Int := 0
  time : Nat := 0
  ctype : CType := .zero
  err : Option PErr := none
deriving DecidableEq

/-- One entry of a backend object listing (`minio.ObjectInfo`). -/
structure ObjectInfo where
  key : GoStr := []
  size : Int := 0
  lastModified : Nat := 0
  storageClass : GoStr := []
  err : Option BErr := none
deriving DecidableEq

/-- One entry of a backend bucket listing (`minio.BucketInfo`). -/
structure BucketInfo where
  name : GoStr := []
  creationDate : Nat := 0
deriving DecidableEq

/-- The S3 storage class treated as archival by the source
(`s3StorageClassGlacier`). -/
def s3StorageClassGlacier : GoStr := gs "GLACIER"

/-! ### Flat (non-recursive) listing: `listInRoutine` -/

/-- The item built for one error-free entry of the flat object loop:
the URL path joins separator, bucket and key (only the key under a
virtual-host-style client); a key ending in the separator becomes a
Directory entry stamped with the current wall-clock time, any other key
an Object entry with its backend size and modification time. -/
def flatContent (c : S3Client) (b : GoStr) (now : Nat) (o : ObjectInfo) : ClientContent :=
  let p :=
    if c.virtualStyle then goJoin [[c.targetURL.sep], o.key]
    else goJoin [[c.targetURL.sep], b, o.key]
  if goHasSuffix o.key [c.targetURL.sep] then
    { urlPath := p, size := 0, time := now, ctype := .dir }
  else
    { urlPath := p, size := o.size, time := o.lastModified, ctype := .file0664 }

/-- The object loop of `listInRoutine` (default case): an entry carrying
a backend error is emitted as an error item and the routine returns,
closing the channel; other entries are emitted via `flatContent`. -/
def listFlatLoop (c : S3Client) (b : GoStr) (now : Nat) : List ObjectInfo → List ClientContent
  | [] => []
  | o :: rest =>
    match o.err with
    | some e => [{ err := some (.backend e) }]
    | none => flatContent c b now o :: listFlatLoop c b now rest

/-- Source `listInRoutine`. `bk` is the backend response to
`ListBuckets`, `objsOf b o` the stream produced by the backend object
listing for bucket `b` and prefix `o` with `isRecursive = false`. -/
def listInRoutine (c : S3Client) (now : Nat) (bk : Except BErr (List BucketInfo))
    (objsOf : GoStr → GoStr → List ObjectInfo) : List ClientContent :=
  let (b, o) := url2BucketAndObject c
  if b = [] ∧ o = [] then
    match bk with
    | .error e => [{ err := some (.backend e) }]
    | .ok buckets =>
      buckets.map fun bucket =>
        { urlPath := goJoin [c.targetURL.path, bucket.name],
          size := 0, time := bucket.creationDate, ctype := .dir }
  else if b ≠ [] ∧ ¬ goHasSuffix c.targetURL.path [c.targetURL.sep] ∧ o = [] then
    match bk with
    | .error e => [{ err := some (.backend e) }]
    | .ok buckets =>
      match buckets.find? (fun bucket => bucket.name = b) with
      | none => []
      | some bucket =>
        [{ urlPath := c.targetURL.path, size := 0,
           time := bucket.creationDate, ctype := .dir }]
  else listFlatLoop c b now (objsOf b o)

/-! ### Recursive listing: `listRecursiveInRoutine` -/

/-- The per-bucket object loop of the root case of
`listRecursiveInRoutine`: a GLACIER entry is emitted as an item carrying
only an `ObjectOnGlacier` error and the loop continues; an entry with a
backend error is emitted as an error item and the loop continues; any
other entry becomes an Object item whose URL joins the target path,
bucket name and key. -/
def recRootLoop (c : S3Client) (bucketName : GoStr) : List ObjectInfo → List ClientContent
  | [] => []
  | o :: rest =>
    if o.storageClass = s3StorageClassGlacier then
      { err := some (.objectOnGlacier o.key) } :: recRootLoop c bucketName rest
    else
      match o.err with
      | some e => { err := some (.backend e) } :: recRootLoop c bucketName rest
      | none =>
        { urlPath := goJoin [c.targetURL.path, bucketName, o.key],
          size := o.size, time := o.lastModified, ctype := .file0664 }
          :: recRootLoop c bucketName rest

/-- The item built for one error-free, non-skipped entry of the
bucket-scoped recursive loop: an Object item whose URL path joins
separator, bucket and key (only the key under a virtual-host-style
client). -/
def recContent (c : S3Client) (b : GoStr) (o : ObjectInfo) : ClientContent :=
  { urlPath :=
      (if c.virtualStyle then goJoin [[c.targetURL.sep], o.key]
       else goJoin [[c.targetURL.sep], b, o.key]),
    size := o.size, time := o.lastModified, ctype := .file0664 }

/-- The object loop of the default (bucket-scoped) case of
`listRecursiveInRoutine`: an entry with a backend error is emitted as an
error item and the loop continues; a zero-size entry whose key ends in
the literal character `/` is skipped; any other entry becomes an Object
item. There is no storage-class check on this path. -/
def listRecLoop (c : S3Client) (b : GoStr) : List ObjectInfo → List ClientContent
  | [] => []
  | o :: rest =>
    match o.err with
    | some e => { err := some (.backend e) } :: listRecLoop c b rest
    | none =>
      if o.size = 0 ∧ goHasSuffix o.key (gs "/") then listRecLoop c b rest
      else recContent c b o :: listRecLoop c b rest

/-- Source `listRecursiveInRoutine`. In the root case every bucket is
announced as a Directory item and then expanded by `recRootLoop`; the
default case runs `listRecLoop` on the bucket-scoped listing. -/
def listRecursiveInRoutine (c : S3Client) (bk : Except BErr (List BucketInfo))
    (objsOf : GoStr → GoStr → List ObjectInfo) : List ClientContent :=
  let (b, o) := url2BucketAndObject c
  if b = [] ∧ o = [] then
    match bk with
    | .error e => [{ err := some (.backend e) }]
    | .ok buckets =>
      buckets.flatMap fun bucket =>
        { urlPath := goJoin [c.targetURL.path, bucket.name],
          size := 0, time := bucket.creationDate, ctype := .dir }
          :: recRootLoop c bucket.name (objsOf bucket.name o)
  else listRecLoop c b (objsOf b o)

/-! ### Bucket name validation -/

/-- Lowercase letter or digit, the class `[a-z0-9]` of the source regex. -/
def isLowerAlnum (ch : Char) : Bool :=
  ('a' ≤ ch && ch ≤ 'z') || ('0' ≤ ch && ch ≤ '9')

/-- The middle-character class `[a-z0-9.-]` of the source regex. -/
def isBucketMid (ch : Char) : Bool := isLowerAlnum ch || ch = '.' || ch = '-'

/-- The language of the anchored source regex
`[a-z0-9][a-z0-9.-]{1,61}[a-z0-9]` (`validBucketName` in the source): a
lowercase alphanumeric first character, one to sixty-one middle
characters from the extended class, and a lowercase alphanumeric last
character. -/
def validBucketName (s : GoStr) : Bool :=
  match s with
  | [] => false
  | c :: rest =>
    match rest.getLast? with
    | none => false
    | some d =>
      isLowerAlnum c && isLowerAlnum d &&
      decide (1 ≤ rest.dropLast.length) && decide (rest.dropLast.length ≤ 61) &&
      rest.dropLast.all isBucketMid

/-- Source `isValidBucketName`: reject blank names, names outside the
3..63 length range, and names outside the regex language; the error
messages follow the source (with quote characters elided). -/
def isValidBucketName (bucketName : GoStr) : Except String Unit :=
  if goTrimSpace bucketName = [] then
    .error "Bucket name cannot be empty."
  else if bucketName.length < 3 ∨ 63 < bucketName.length then
    .error "Bucket name should be more than 3 characters and less than 64 characters"
  else if ¬ validBucketName bucketName then
    .error "Bucket name can contain alphabet, - and numbers, but first character should be an alphabet or number"
  else .ok ()

/-- Modelled from the spec (section 6): the documented bucket-name rule,
written independently of the source regex — 3 to 63 characters, all from
the lowercase alphanumeric class extended with dot and dash, with
alphanumeric first and last characters. -/
def specBucketRule (s : GoStr) : Bool :=
  decide (3 ≤ s.length) && decide (s.length ≤ 63) && s.all isBucketMid &&
  (match s.head?, s.getLast? with
   | some c, some d => isLowerAlnum c && isLowerAlnum d
   | _, _ => false)

/-! ### Remove -/

/-- The backend operation selected by `Remove`. -/
inductive RemoveAction where
  | removeIncompleteUpload (bucket object : GoStr)
  | removeBucket (bucket : GoStr)
  | removeObject (bucket object : GoStr)
deriving DecidableEq

/-- Source `Remove`: with the incomplete flag and a non-empty object the
incomplete upload is removed; otherwise an empty object removes the
bucket and a non-empty object removes the object. -/
def Remove (c : S3Client) (incomp : Bool) : RemoveAction :=
  let (bucket, object) := url2BucketAndObject c
  if incomp ∧ object ≠ [] then .removeIncompleteUpload bucket object
  else if object = [] then .removeBucket bucket
  else .removeObject bucket object

/-! ### Stat -/

/-- The listing loop of `Stat`: an entry with a backend error aborts
with that error; an entry whose key equals the requested (trimmed)
object is returned as an Object item; otherwise an entry whose key ends
in the separator is returned as a Directory item; when the listing is
exhausted the result is ObjectMissing. -/
def statLoop (c : S3Client) (object : GoStr) : List ObjectInfo → Except PErr ClientContent
  | [] => .error .objectMissing
  | os :: rest =>
    match os.err with
    | some e => .error (.backend e)
    | none =>
      if os.key = object then
        .ok { urlPath := c.targetURL.path, size := os.size,
              time := os.lastModified, ctype := .file0664 }
      else if goHasSuffix os.key [c.targetURL.sep] then
        .ok { urlPath := c.targetURL.path, ctype := .dir }
      else statLoop c object rest

/-- Source `Stat`. `bkExists` is the backend reply to `BucketExists`,
`listingOf o` the non-recursive backend listing scoped to bucket and
prefix `o`. An empty bucket fails with BucketNameEmpty; an empty object
resolves the bucket through the existence check; otherwise trailing
separators are stripped from the object key and the listing is scanned
by `statLoop`. -/
def Stat (c : S3Client) (bkExists : Except BErr Bool)
    (listingOf : GoStr → List ObjectInfo) : Except PErr ClientContent :=
  let (bucket, object) := url2BucketAndObject c
  if bucket = [] then .error .bucketNameEmpty
  else if object = [] then
    match bkExists with
    | .error e => .error (.backend e)
    | .ok false => .error (.bucketDoesNotExist bucket)
    | .ok true => .ok { urlPath := c.targetURL.path, ctype := .dir }
  else
    let object := goTrimRight object c.targetURL.sep
    statLoop c object (listingOf object)

/-! ### Watch parameter validation -/

/-- The parameters of `Watch` (`watchParams`). -/
structure WatchParams where
  events : List GoStr
  pfx : GoStr
  sfx : GoStr
deriving DecidableEq

/-- The backend subscription that `Watch` opens when validation
succeeds: bucket, prefix, suffix and the translated event list passed to
`ListenBucketNotification`. -/
inductive WatchAction where
  | subscribe (bucket pfx sfx : GoStr) (events : List GoStr)
deriving DecidableEq

/-- The event-translation loop of `Watch`: `put` and `delete` map to the
SDK event-class names in input order, any other name aborts with
InvalidArgument. -/
def translateEvents : List GoStr → Except PErr (List GoStr)
  | [] => .ok []
  | e :: rest =>
    if e = gs "put" then (translateEvents rest).map (gs "s3:ObjectCreated:*" :: ·)
    else if e = gs "delete" then (translateEvents rest).map (gs "s3:ObjectRemoved:*" :: ·)
    else .error .invalidArgument

/-- The validation phase of source `Watch`, everything executed before
`ListenBucketNotification` is called: bucket-name validation, event
translation, rejection of a simultaneous object key and prefix, and
promotion of the object key to the prefix when no prefix was given. An
error result means no backend subscription is ever opened. -/
def watchSetup (c : S3Client) (params : WatchParams) : Except PErr WatchAction :=
  let (bucket, object) := url2BucketAndObject c
  match isValidBucketName bucket with
  | .error m => .error (.errBucketName m)
  | .ok _ =>
    match translateEvents params.events with
    | .error e => .error e
    | .ok evs =>
      if object ≠ [] ∧ params.pfx ≠ [] then .error .invalidArgument
      else
        let pfx := if object ≠ [] ∧ params.pfx = [] then object else params.pfx
        .ok (.subscribe bucket pfx params.sfx evs)

/-! ### Helper lemmas: bucket-name validation -/

lemma isBucketMid_of_isLowerAlnum {ch : Char} (h : isLowerAlnum ch = true) :
    isBucketMid ch = true := by
  simp [isBucketMid, h]

lemma validBucketName_concat (c d : Char) (m : GoStr) :
    validBucketName (c :: (m ++ [d])) =
      (isLowerAlnum c && isLowerAlnum d && decide (1 ≤ m.length) &&
       decide (m.length ≤ 61) && m.all isBucketMid) := by
  simp [validBucketName, List.getLast?_concat, List.dropLast_concat]

lemma validBucketName_eq_specBucketRule (s : GoStr) :
    validBucketName s = specBucketRule s := by
  match s with
  | [] => rfl
  | [c] => rfl
  | c :: rest =>
    rcases rest.eq_nil_or_concat with rfl | ⟨m, d, rfl⟩
    · rfl
    · rw [List.concat_eq_append]
      have hh : (c :: (m ++ [d])).head? = some c := rfl
      have hg : (c :: (m ++ [d])).getLast? = some d := by
        rw [← List.cons_append, List.getLast?_concat]
      rw [validBucketName_concat, Bool.eq_iff_iff]
      simp only [specBucketRule, hh, hg, Bool.and_eq_true, decide_eq_true_eq,
        List.all_eq_true, List.length_cons, List.length_append, List.length_nil,
        List.mem_cons, List.mem_append, List.mem_singleton, List.not_mem_nil,
        or_false, and_assoc]
      constructor
      · rintro ⟨hc, hd, h1, h61, hall⟩
        refine ⟨by omega, by omega, ?_, hc, hd⟩
        intro x hx
        rcases hx with rfl | hx | rfl
        · exact isBucketMid_of_isLowerAlnum hc
        · exact hall x hx
        · exact isBucketMid_of_isLowerAlnum hd
      · rintro ⟨h3, h63, hall, hc, hd⟩
        refine ⟨hc, hd, by omega, by omega, ?_⟩
        intro x hx
        exact hall x (Or.inr (Or.inl hx))

lemma isLowerAlnum_not_space {ch : Char} (h : isLowerAlnum ch = true) :
    goIsSpace ch = false := by
  cases hsp : goIsSpace ch
  · rfl
  · exfalso
    simp only [goIsSpace, Bool.or_eq_true, decide_eq_true_eq] at hsp
    rcases hsp with ((((((rfl | rfl) | rfl) | rfl) | rfl) | rfl) | rfl) | rfl <;>
      exact absurd h (by decide)

lemma goTrimSpace_ne_nil_of_head {c : Char} {rest : GoStr}
    (h : goIsSpace c = false) : goTrimSpace (c :: rest) ≠ [] := by
  intro hnil
  unfold goTrimSpace at hnil
  rw [List.dropWhile_cons_of_neg (by simp [h])] at hnil
  rw [List.reverse_eq_nil_iff, List.dropWhile_eq_nil_iff] at hnil
  exact absurd (hnil c (by simp)) (by simp [h])

lemma validBucketName_head {c : Char} {rest : GoStr}
    (h : validBucketName (c :: rest) = true) : isLowerAlnum c = true := by
  cases hl : rest.getLast? with
  | none => simp [validBucketName, hl] at h
  | some d =>
    simp only [validBucketName, hl, Bool.and_eq_true] at h
    exact h.1.1.1.1

/-- C9. `isValidBucketName` accepts a string if and only if it satisfies
the documented rule: 3 to 63 characters, all lowercase alphanumerics
plus dot and dash, with alphanumeric first and last characters
(`specBucketRule`, written from the spec wording). Every other string is
rejected with an error. -/
theorem isValidBucketName_iff_documented_rule (s : GoStr) :
    isValidBucketName s = .ok () ↔ specBucketRule s = true := by
  constructor
  · intro h
    unfold isValidBucketName at h
    split at h
    · exact absurd h (by simp)
    · split at h
      · exact absurd h (by simp)
      · split at h
        · exact absurd h (by simp)
        · rename_i hval
          rw [← validBucketName_eq_specBucketRule]
          exact Bool.of_not_eq_false (by simpa using hval)
  · intro h
    rw [← validBucketName_eq_specBucketRule] at h
    have hlen : 3 ≤ s.length ∧ s.length ≤ 63 := by
      rw [validBucketName_eq_specBucketRule] at h
      simp only [specBucketRule, Bool.and_eq_true, decide_eq_true_eq] at h
      exact ⟨h.1.1.1, h.1.1.2⟩
    obtain ⟨c, rest, rfl⟩ : ∃ c rest, s = c :: rest := by
      cases s with
      | nil => simp at hlen
      | cons c rest => exact ⟨c, rest, rfl⟩
    have hc : isLowerAlnum c = true := validBucketName_head h
    unfold isValidBucketName
    rw [if_neg (goTrimSpace_ne_nil_of_head (isLowerAlnum_not_space hc))]
    rw [if_neg (by omega)]
    rw [if_neg (by simp [h])]

/-- C9 witness instance: a concrete name on each side of the rule. -/
theorem isValidBucketName_iff_documented_rule_witness :
    (isValidBucketName (gs "my-bucket.01") = .ok ()) ∧
      specBucketRule (gs "my-bucket.01") = true :=
  ⟨(isValidBucketName_iff_documented_rule (gs "my-bucket.01")).mpr (by decide),
   by decide⟩

/-- C10. In `Remove`, the incomplete flag together with an empty object
key falls through to bucket removal, and `RemoveIncompleteUpload` is
selected exactly when the flag is set and the object key is non-empty. -/
theorem remove_action_policy (c : S3Client) (incomp : Bool) :
    (incomp = true → (url2BucketAndObject c).2 = [] →
       Remove c incomp = .removeBucket (url2BucketAndObject c).1) ∧
    (∀ b o : GoStr, Remove c incomp = .removeIncompleteUpload b o ↔
       incomp = true ∧ (url2BucketAndObject c).2 ≠ [] ∧
       b = (url2BucketAndObject c).1 ∧ o = (url2BucketAndObject c).2) := by
  rcases hu : url2BucketAndObject c with ⟨bkt, obj⟩
  simp only [Remove, hu]
  constructor
  · rintro rfl rfl
    simp
  · intro b o
    by_cases hi : incomp = true <;> by_cases ho : obj = [] <;>
      simp [hi, ho, and_comm, eq_comm]

/-- C10 witness instance: incomplete removal of a bare bucket URL picks
`RemoveBucket`. -/
theorem remove_action_policy_witness :
    Remove ⟨⟨gs "play.minio.io", gs "/abc", '/'⟩, false⟩ true
      = .removeBucket (gs "abc") :=
  (remove_action_policy ⟨⟨gs "play.minio.io", gs "/abc", '/'⟩, false⟩ true).1
    rfl (by decide)

/-! ### Helper lemmas: Watch event translation -/

lemma translateEvents_cases (es : List GoStr) :
    (∃ evs, translateEvents es = .ok evs) ∨
      translateEvents es = .error .invalidArgument := by
  induction es with
  | nil => exact .inl ⟨[], rfl⟩
  | cons e rest ih =>
    by_cases h1 : e = gs "put"
    · rcases ih with ⟨evs, hok⟩ | herr
      · exact .inl ⟨gs "s3:ObjectCreated:*" :: evs,
          by simp [translateEvents, h1, hok, Except.map]⟩
      · exact .inr (by simp [translateEvents, h1, herr, Except.map])
    · by_cases h2 : e = gs "delete"
      · rcases ih with ⟨evs, hok⟩ | herr
        · exact .inl ⟨gs "s3:ObjectRemoved:*" :: evs,
            by
              have hde : ¬ (gs "delete" = gs "put") := by decide
              simp [translateEvents, h1, h2, hde, hok, Except.map]⟩
        · exact .inr (by simp [translateEvents, h1, h2, herr, Except.map])
      · exact .inr (by simp [translateEvents, h1, h2])

lemma translateEvents_bad {es : List GoStr} {e : GoStr} (he : e ∈ es)
    (hbad : e ≠ gs "put" ∧ e ≠ gs "delete") :
    translateEvents es = .error .invalidArgument := by
  induction es with
  | nil => cases he
  | cons f rest ih =>
    rcases List.mem_cons.mp he with rfl | hmem
    · simp [translateEvents, hbad.1, hbad.2]
    · have hr := ih hmem
      by_cases h1 : f = gs "put"
      · simp [translateEvents, h1, hr, Except.map]
      · by_cases h2 : f = gs "delete"
        · simp [translateEvents, h1, h2, hr, Except.map]
        · simp [translateEvents, h1, h2]

lemma translateEvents_good {es : List GoStr}
    (h : ∀ e ∈ es, e = gs "put" ∨ e = gs "delete") :
    ∃ evs, translateEvents es = .ok evs := by
  induction es with
  | nil => exact ⟨[], rfl⟩
  | cons f rest ih =>
    obtain ⟨evs, hr⟩ := ih (fun e he => h e (List.mem_cons_of_mem f he))
    have hde : ¬ (gs "delete" = gs "put") := by decide
    rcases h f (List.mem_cons_self f rest) with rfl | rfl
    · exact ⟨gs "s3:ObjectCreated:*" :: evs,
        by simp [translateEvents, hr, Except.map]⟩
    · exact ⟨gs "s3:ObjectRemoved:*" :: evs,
        by simp [translateEvents, hde, hr, Except.map]⟩

/-- C8. Under a valid bucket name, `Watch` validation fails with
InvalidArgument (and so never opens a subscription) whenever some event
name is neither put nor delete, and whenever both a non-empty object key
and a non-empty prefix are supplied; with a non-empty object key and an
empty prefix, the object key becomes the subscription prefix. -/
theorem watch_validates_before_subscribe (c : S3Client) (params : WatchParams)
    (hb : isValidBucketName (url2BucketAndObject c).1 = .ok ()) :
    ((∃ e ∈ params.events, e ≠ gs "put" ∧ e ≠ gs "delete") →
       watchSetup c params = .error .invalidArgument) ∧
    ((url2BucketAndObject c).2 ≠ [] → params.pfx ≠ [] →
       watchSetup c params = .error .invalidArgument) ∧
    ((url2BucketAndObject c).2 ≠ [] → params.pfx = [] →
       (∀ e ∈ params.events, e = gs "put" ∨ e = gs "delete") →
       ∃ evs, translateEvents params.events = .ok evs ∧
         watchSetup c params =
           .ok (.subscribe (url2BucketAndObject c).1 (url2BucketAndObject c).2
                params.sfx evs)) := by
  rcases hu : url2BucketAndObject c with ⟨bkt, obj⟩
  rw [hu] at hb
  simp only at hb
  refine ⟨?_, ?_, ?_⟩
  · rintro ⟨e, he, hbad⟩
    simp [watchSetup, hu, hb, translateEvents_bad he hbad]
  · intro ho hp
    rcases translateEvents_cases params.events with ⟨evs, hok⟩ | herr
    · simp [watchSetup, hu, hb, hok, ho, hp]
    · simp [watchSetup, hu, hb, herr]
  · intro ho hp hgood
    obtain ⟨evs, hok⟩ := translateEvents_good hgood
    refine ⟨evs, hok, ?_⟩
    simp [watchSetup, hu, hb, hok, ho, hp]

/-- C8 witness instance: a put-only watch with both an object key and a
prefix is rejected with InvalidArgument. -/
theorem watch_validates_before_subscribe_witness :
    watchSetup ⟨⟨gs "play.minio.io", gs "/abc/key", '/'⟩, false⟩
        ⟨[gs "put"], gs "pre", []⟩ = .error .invalidArgument :=
  (watch_validates_before_subscribe
      ⟨⟨gs "play.minio.io", gs "/abc/key", '/'⟩, false⟩
      ⟨[gs "put"], gs "pre", []⟩ (by decide)).2.1 (by decide) (by decide)

/-! ### Helper lemmas: splitting -/

lemma splitFirst_not_mem {sep : Char} {b : GoStr} (hb : ∀ ch ∈ b, ch ≠ sep) :
    splitFirst sep b = none := by
  induction b with
  | nil => rfl
  | cons c cs ih =>
    rw [splitFirst, if_neg (hb c (List.mem_cons_self c cs)),
      ih (fun ch h => hb ch (List.mem_cons_of_mem c h))]

lemma splitFirst_append {sep : Char} {b o : GoStr} (hb : ∀ ch ∈ b, ch ≠ sep) :
    splitFirst sep (b ++ sep :: o) = some (b, o) := by
  induction b with
  | nil => simp [splitFirst]
  | cons c cs ih =>
    rw [List.cons_append, splitFirst, if_neg (hb c (List.mem_cons_self c cs)),
      ih (fun ch h => hb ch (List.mem_cons_of_mem c h))]

lemma goSplitN_three (sep : Char) (s : GoStr) :
    goSplitN sep 3 s =
      match splitFirst sep s with
      | none => [s]
      | some (a, rest) => a :: goSplitN sep 2 rest := rfl

lemma goSplitN_two (sep : Char) (s : GoStr) :
    goSplitN sep 2 s =
      match splitFirst sep s with
      | none => [s]
      | some (a, rest) => [a, rest] := rfl

/-- C6. Split behaviour of the address resolver: for a path-style client
an empty path resolves to two empty fields, a lone separator-prefixed
segment resolves to a bucket with empty object, and a second separator
splits bucket from the rest of the path; for a virtual-host-style client
whose provider marker sits at host position zero or is absent, nothing
is taken from the host and the original path is split unchanged. -/
theorem url2BucketAndObject_split_fields (c : S3Client) :
    (c.virtualStyle = false → c.targetURL.path = [] →
       url2BucketAndObject c = ([], [])) ∧
    (∀ b : GoStr, c.virtualStyle = false →
       c.targetURL.path = c.targetURL.sep :: b →
       (∀ ch ∈ b, ch ≠ c.targetURL.sep) →
       url2BucketAndObject c = (b, [])) ∧
    (∀ b o : GoStr, c.virtualStyle = false →
       c.targetURL.path = c.targetURL.sep :: (b ++ c.targetURL.sep :: o) →
       (∀ ch ∈ b, ch ≠ c.targetURL.sep) →
       url2BucketAndObject c = (b, o)) ∧
    (c.virtualStyle = true →
       (goIndex (gs "s3") c.targetURL.host = some 0 ∨
        (goIndex (gs "s3") c.targetURL.host = none ∧
         (goIndex (gs "storage.googleapis") c.targetURL.host = some 0 ∨
          goIndex (gs "storage.googleapis") c.targetURL.host = none))) →
       url2BucketAndObject c = url2BucketAndObject ⟨c.targetURL, false⟩) := by
  refine ⟨?_, ?_, ?_, ?_⟩
  · intro hv hp
    simp [url2BucketAndObject, hv, hp, goSplitN_three, splitFirst]
  · intro b hv hp hb
    have hsp : goSplitN c.targetURL.sep 3 (c.targetURL.sep :: b) = [[], b] := by
      simp [goSplitN_three, goSplitN_two, splitFirst, splitFirst_not_mem hb]
    simp [url2BucketAndObject, hv, hp, hsp]
  · intro b o hv hp hb
    have hsp : goSplitN c.targetURL.sep 3
        (c.targetURL.sep :: (b ++ c.targetURL.sep :: o)) = [[], b, o] := by
      simp [goSplitN_three, goSplitN_two, splitFirst, splitFirst_append hb]
    simp [url2BucketAndObject, hv, hp, hsp]
  · intro hv hidx
    rcases hidx with h0 | ⟨hn, hg⟩
    · simp [url2BucketAndObject, hv, h0]
    · rcases hg with h0' | hn'
      · simp [url2BucketAndObject, hv, hn, h0']
      · simp [url2BucketAndObject, hv, hn, hn']

/-- C6 witness instance: a concrete path-style split with a nested
object key. -/
theorem url2BucketAndObject_split_fields_witness :
    url2BucketAndObject ⟨⟨gs "play.minio.io", gs "/b/o/x", '/'⟩, false⟩
      = (gs "b", gs "o/x") :=
  (url2BucketAndObject_split_fields
      ⟨⟨gs "play.minio.io", gs "/b/o/x", '/'⟩, false⟩).2.2.1
    (gs "b") (gs "o/x") rfl rfl (by decide)

/-! ### Helper lemmas: listing routine dispatch and loops -/

lemma listInRoutine_default {c : S3Client} {b o : GoStr} (now : Nat)
    (bk : Except BErr (List BucketInfo)) (objsOf : GoStr → GoStr → List ObjectInfo)
    (hres : url2BucketAndObject c = (b, o))
    (hc1 : ¬(b = [] ∧ o = []))
    (hc2 : ¬(b ≠ [] ∧ ¬ goHasSuffix c.targetURL.path [c.targetURL.sep] = true ∧ o = [])) :
    listInRoutine c now bk objsOf = listFlatLoop c b now (objsOf b o) := by
  simp only [listInRoutine, hres]
  rw [if_neg hc1, if_neg hc2]

lemma listRecursiveInRoutine_default {c : S3Client} {b o : GoStr}
    (bk : Except BErr (List BucketInfo)) (objsOf : GoStr → GoStr → List ObjectInfo)
    (hres : url2BucketAndObject c = (b, o))
    (hc1 : ¬(b = [] ∧ o = [])) :
    listRecursiveInRoutine c bk objsOf = listRecLoop c b (objsOf b o) := by
  simp only [listRecursiveInRoutine, hres]
  rw [if_neg hc1]

lemma listRecursiveInRoutine_root {c : S3Client}
    (buckets : List BucketInfo) (objsOf : GoStr → GoStr → List ObjectInfo)
    (hres : url2BucketAndObject c = ([], [])) :
    listRecursiveInRoutine c (.ok buckets) objsOf =
      buckets.flatMap (fun bucket =>
        { urlPath := goJoin [c.targetURL.path, bucket.name], size := 0,
          time := bucket.creationDate, ctype := .dir, err := none }
          :: recRootLoop c bucket.name (objsOf bucket.name [])) := by
  simp [listRecursiveInRoutine, hres]

lemma listFlatLoop_no_errors (c : S3Client) (b : GoStr) (now : Nat)
    {l : List ObjectInfo} (herr : ∀ x ∈ l, x.err = none) :
    listFlatLoop c b now l = l.map (flatContent c b now) := by
  induction l with
  | nil => rfl
  | cons x rest ih =>
    simp only [listFlatLoop, herr x (List.mem_cons_self x rest), List.map_cons]
    rw [ih (fun y hy => herr y (List.mem_cons_of_mem x hy))]

lemma listFlatLoop_stops_at_error (c : S3Client) (b : GoStr) (now : Nat)
    {xs : List ObjectInfo} (x : ObjectInfo) (ys : List ObjectInfo) {e : BErr}
    (hxs : ∀ y ∈ xs, y.err = none) (hx : x.err = some e) :
    listFlatLoop c b now (xs ++ x :: ys) =
      xs.map (flatContent c b now) ++ [{ err := some (.backend e) }] := by
  induction xs with
  | nil => simp [listFlatLoop, hx]
  | cons y rest ih =>
    simp only [List.cons_append, listFlatLoop,
      hxs y (List.mem_cons_self y rest), List.map_cons, List.append_eq,
      List.cons_append]
    rw [ih (fun z hz => hxs z (List.mem_cons_of_mem y hz))]

lemma listRecLoop_append (c : S3Client) (b : GoStr) (xs ys : List ObjectInfo) :
    listRecLoop c b (xs ++ ys) = listRecLoop c b xs ++ listRecLoop c b ys := by
  induction xs with
  | nil => rfl
  | cons x rest ih =>
    cases hx : x.err with
    | some e => simp [listRecLoop, hx, ih]
    | none =>
      by_cases hskip : x.size = 0 ∧ goHasSuffix x.key (gs "/") = true
      · simp [listRecLoop, hx, hskip, ih]
      · simp [listRecLoop, hx, hskip, ih]

lemma listRecLoop_error_head (c : S3Client) (b : GoStr) {x : ObjectInfo}
    (ys : List ObjectInfo) {e : BErr} (hx : x.err = some e) :
    listRecLoop c b (x :: ys) =
      { err := some (.backend e) } :: listRecLoop c b ys := by
  simp [listRecLoop, hx]

lemma listRecLoop_no_errors (c : S3Client) (b : GoStr)
    {l : List ObjectInfo} (herr : ∀ x ∈ l, x.err = none) :
    listRecLoop c b l =
      (l.filter fun x => ¬(x.size = 0 ∧ goHasSuffix x.key (gs "/"))).map
        (recContent c b) := by
  induction l with
  | nil => rfl
  | cons x rest ih =>
    have hx := herr x (List.mem_cons_self x rest)
    have ih' := ih (fun y hy => herr y (List.mem_cons_of_mem x hy))
    by_cases hskip : x.size = 0 ∧ goHasSuffix x.key (gs "/") = true
    · simp only [listRecLoop, hx, if_pos hskip, List.filter_cons]
      rw [ih']
      simp [hskip]
    · simp only [listRecLoop, hx, if_neg hskip, List.filter_cons]
      rw [ih']
      simp [hskip]

lemma recRootLoop_append (c : S3Client) (n : GoStr) (xs ys : List ObjectInfo) :
    recRootLoop c n (xs ++ ys) = recRootLoop c n xs ++ recRootLoop c n ys := by
  induction xs with
  | nil => rfl
  | cons x rest ih =>
    by_cases hg : x.storageClass = s3StorageClassGlacier
    · simp [recRootLoop, hg, ih]
    · cases hx : x.err with
      | some e => simp [recRootLoop, hg, hx, ih]
      | none => simp [recRootLoop, hg, hx, ih]

lemma recRootLoop_glacier_head (c : S3Client) (n : GoStr) {x : ObjectInfo}
    (ys : List ObjectInfo) (hg : x.storageClass = s3StorageClassGlacier) :
    recRootLoop c n (x :: ys) =
      { err := some (.objectOnGlacier x.key) } :: recRootLoop c n ys := by
  simp [recRootLoop, hg]

/-- C3. In a bucket-scoped (default-case) recursive listing with an
error-free backend stream and the usual `/` separator, exactly the
entries that are not zero-size separator-suffixed pseudo-directory
markers are emitted, each as an Object item; a marker key such as
`dir/` is never emitted as its own entry. -/
theorem rec_listing_skips_dir_markers (c : S3Client) (b o : GoStr)
    (bk : Except BErr (List BucketInfo)) (objsOf : GoStr → GoStr → List ObjectInfo)
    (hres : url2BucketAndObject c = (b, o))
    (hcase : ¬(b = [] ∧ o = []))
    (hsep : c.targetURL.sep = '/')
    (herr : ∀ x ∈ objsOf b o, x.err = none) :
    listRecursiveInRoutine c bk objsOf =
      ((objsOf b o).filter fun x => ¬(x.size = 0 ∧ goHasSuffix x.key (gs "/"))).map
        (recContent c b) := by
  rw [listRecursiveInRoutine_default bk objsOf hres hcase,
    listRecLoop_no_errors c b herr]

/-- C3 witness instance: the spec scenario — keys `a`, `dir/` (zero
size), `dir/b` in bucket `abc` yield exactly the objects `a` and
`dir/b`. -/
theorem rec_listing_skips_dir_markers_witness :
    listRecursiveInRoutine ⟨⟨gs "play.minio.io", gs "/abc", '/'⟩, false⟩ (.ok [])
        (fun _ _ =>
          [{ key := gs "a", size := 1, lastModified := 11 },
           { key := gs "dir/", size := 0, lastModified := 12 },
           { key := gs "dir/b", size := 2, lastModified := 13 }]) =
      [{ urlPath := gs "/abc/a", size := 1, time := 11, ctype := .file0664, err := none },
       { urlPath := gs "/abc/dir/b", size := 2, time := 13, ctype := .file0664, err := none }] :=
  (rec_listing_skips_dir_markers ⟨⟨gs "play.minio.io", gs "/abc", '/'⟩, false⟩
      (gs "abc") [] (.ok [])
      (fun _ _ =>
        [{ key := gs "a", size := 1, lastModified := 11 },
         { key := gs "dir/", size := 0, lastModified := 12 },
         { key := gs "dir/b", size := 2, lastModified := 13 }])
      (by decide) (by decide) rfl (by decide)).trans (by decide)

/-- C4 (amended). In the default case of the flat listing with an
error-free backend stream, every entry is emitted through `flatContent`:
a key ending in the separator becomes a Directory item stamped with the
current wall-clock time regardless of its reported size (the size
condition of the original claim is not checked by the code), and only
keys not ending in the separator become Object items with their backend
size and modification time. -/
theorem flat_listing_dir_synthesis (c : S3Client) (b o : GoStr) (now : Nat)
    (bk : Except BErr (List BucketInfo)) (objsOf : GoStr → GoStr → List ObjectInfo)
    (hres : url2BucketAndObject c = (b, o))
    (hc1 : ¬(b = [] ∧ o = []))
    (hc2 : ¬(b ≠ [] ∧ ¬ goHasSuffix c.targetURL.path [c.targetURL.sep] = true ∧ o = []))
    (herr : ∀ x ∈ objsOf b o, x.err = none) :
    listInRoutine c now bk objsOf = (objsOf b o).map (flatContent c b now) ∧
    (∀ x : ObjectInfo, goHasSuffix x.key [c.targetURL.sep] = true →
       flatContent c b now x =
         { urlPath := (if c.virtualStyle then goJoin [[c.targetURL.sep], x.key]
                       else goJoin [[c.targetURL.sep], b, x.key]),
           size := 0, time := now, ctype := .dir, err := none }) ∧
    (∀ x : ObjectInfo, goHasSuffix x.key [c.targetURL.sep] = false →
       flatContent c b now x =
         { urlPath := (if c.virtualStyle then goJoin [[c.targetURL.sep], x.key]
                       else goJoin [[c.targetURL.sep], b, x.key]),
           size := x.size, time := x.lastModified, ctype := .file0664,
           err := none }) := by
  refine ⟨?_, ?_, ?_⟩
  · rw [listInRoutine_default now bk objsOf hres hc1 hc2,
      listFlatLoop_no_errors c b now herr]
  · intro x hx
    simp [flatContent, hx]
  · intro x hx
    simp [flatContent, hx]

/-- C4 witness instance: in a flat listing of bucket `abc`, the zero-size
marker `dir/` comes back as a Directory stamped with the wall clock (17)
and the plain key `a` as an Object with its backend metadata. -/
theorem flat_listing_dir_synthesis_witness :
    listInRoutine ⟨⟨gs "play.minio.io", gs "/abc/", '/'⟩, false⟩ 17 (.ok [])
        (fun _ _ =>
          [{ key := gs "a", size := 1, lastModified := 11 },
           { key := gs "dir/", size := 0, lastModified := 12 }]) =
      [{ urlPath := gs "/abc/a", size := 1, time := 11, ctype := .file0664, err := none },
       { urlPath := gs "/abc/dir", size := 0, time := 17, ctype := .dir, err := none }] :=
  ((flat_listing_dir_synthesis ⟨⟨gs "play.minio.io", gs "/abc/", '/'⟩, false⟩
      (gs "abc") [] 17 (.ok [])
      (fun _ _ =>
        [{ key := gs "a", size := 1, lastModified := 11 },
         { key := gs "dir/", size := 0, lastModified := 12 }])
      (by decide) (by decide) (by decide) (by decide)).1).trans (by decide)

/-- C4 counterexample: a separator-suffixed key of size 5 is still
emitted as a Directory item with the wall-clock time 99 and size 0,
where the claim — which requires zero size for directory synthesis —
demands an Object item carrying backend size 5 and backend time 7. -/
theorem flat_listing_dir_synthesis_counterexample :
    listInRoutine ⟨⟨gs "play.minio.io", gs "/abc/", '/'⟩, false⟩ 99 (.ok [])
        (fun _ _ => [{ key := gs "dir/", size := 5, lastModified := 7 }]) =
      [{ urlPath := gs "/abc/dir", size := 0, time := 99, ctype := .dir, err := none }] ∧
    [({ urlPath := gs "/abc/dir", size := 0, time := 99, ctype := .dir,
        err := none } : ClientContent)] ≠
      [({ urlPath := gs "/abc/dir", size := 5, time := 7, ctype := .file0664,
          err := none } : ClientContent)] := by
  exact ⟨by decide, by decide⟩

/-- C5 (amended). The archival-storage-class handling exists only on the
root (all-buckets) recursive path: there a GLACIER entry yields exactly
one item carrying only the ObjectOnGlacier error and enumeration
continues with the following entries; on the bucket-scoped recursive
path the storage class is never consulted, and a GLACIER entry that is
error-free and not a pseudo-directory marker is emitted as an ordinary
Object item with full metadata and no error. -/
theorem glacier_error_only_on_root_path (c : S3Client) (b o : GoStr)
    (bkt : BucketInfo) (objsOf : GoStr → GoStr → List ObjectInfo)
    (hres : url2BucketAndObject c = (b, o)) :
    (b = [] → o = [] → ∀ xs x ys, objsOf bkt.name [] = xs ++ x :: ys →
       x.storageClass = s3StorageClassGlacier →
       listRecursiveInRoutine c (.ok [bkt]) objsOf =
         { urlPath := goJoin [c.targetURL.path, bkt.name], size := 0,
           time := bkt.creationDate, ctype := .dir, err := none }
           :: (recRootLoop c bkt.name xs ++
               { err := some (.objectOnGlacier x.key) } :: recRootLoop c bkt.name ys)) ∧
    (∀ bk, ¬(b = [] ∧ o = []) → ∀ x rest, objsOf b o = x :: rest →
       x.storageClass = s3StorageClassGlacier → x.err = none →
       ¬(x.size = 0 ∧ goHasSuffix x.key (gs "/") = true) →
       listRecursiveInRoutine c bk objsOf =
         recContent c b x :: listRecLoop c b rest) := by
  constructor
  · rintro rfl rfl xs x ys hsplit hg
    rw [listRecursiveInRoutine_root [bkt] objsOf hres]
    simp only [List.flatMap_singleton, hsplit, recRootLoop_append,
      recRootLoop_glacier_head c bkt.name ys hg]
  · intro bk hcase x rest hsplit hg hx hskip
    rw [listRecursiveInRoutine_default bk objsOf hres hcase, hsplit]
    simp [listRecLoop, hx, hskip]

/-- C5 witness instance: on the root path, a GLACIER entry sandwiched
between two ordinary keys yields one error-only item in place and both
neighbours are still enumerated. -/
theorem glacier_error_only_on_root_path_witness :
    listRecursiveInRoutine ⟨⟨gs "play.minio.io", [], '/'⟩, false⟩
        (.ok [{ name := gs "abc", creationDate := 3 }])
        (fun _ _ =>
          [{ key := gs "a", size := 1, lastModified := 11 },
           { key := gs "g", size := 2, lastModified := 12,
             storageClass := gs "GLACIER" },
           { key := gs "z", size := 4, lastModified := 14 }]) =
      [{ urlPath := gs "abc", size := 0, time := 3, ctype := .dir, err := none },
       { urlPath := gs "abc/a", size := 1, time := 11, ctype := .file0664, err := none },
       { err := some (.objectOnGlacier (gs "g")) },
       { urlPath := gs "abc/z", size := 4, time := 14, ctype := .file0664, err := none }] :=
  ((glacier_error_only_on_root_path ⟨⟨gs "play.minio.io", [], '/'⟩, false⟩
      [] [] { name := gs "abc", creationDate := 3 }
      (fun _ _ =>
        [{ key := gs "a", size := 1, lastModified := 11 },
         { key := gs "g", size := 2, lastModified := 12,
           storageClass := gs "GLACIER" },
         { key := gs "z", size := 4, lastModified := 14 }])
      (by decide)).1 rfl rfl
      [{ key := gs "a", size := 1, lastModified := 11 }]
      { key := gs "g", size := 2, lastModified := 12, storageClass := gs "GLACIER" }
      [{ key := gs "z", size := 4, lastModified := 14 }]
      (by decide) (by decide)).trans (by decide)

/-- C5 counterexample: in the bucket-scoped recursive listing, the
single GLACIER entry `k` is emitted with its full metadata and no error,
while the claim requires every GLACIER entry enumerated in recursive
mode to yield an item carrying only an object-on-glacier error. -/
theorem glacier_error_only_on_root_path_counterexample :
    listRecursiveInRoutine ⟨⟨gs "play.minio.io", gs "/abc/", '/'⟩, false⟩ (.ok [])
        (fun _ _ => [{ key := gs "k", size := 5, lastModified := 7,
                       storageClass := gs "GLACIER" }]) =
      [{ urlPath := gs "/abc/k", size := 5, time := 7, ctype := .file0664, err := none }] ∧
    ({ urlPath := gs "/abc/k", size := 5, time := 7, ctype := .file0664,
       err := none } : ClientContent) ≠
      { err := some (.objectOnGlacier (gs "k")) } := by
  exact ⟨by decide, by decide⟩

/-- C1 (amended). Error policy of the listing engine: on the flat
(non-recursive) default path a per-item backend error is emitted as one
error item and the stream then closes (enumeration does not continue);
on the bucket-scoped recursive path a per-item backend error is emitted
inline and enumeration continues with the remaining entries; a
structural `ListBuckets` failure on either root path is emitted as a
single terminal error item followed by the close of the stream. -/
theorem listing_error_policy (c : S3Client) (b o : GoStr) (now : Nat)
    (objsOf : GoStr → GoStr → List ObjectInfo)
    (hres : url2BucketAndObject c = (b, o)) :
    (∀ bk xs x ys e, ¬(b = [] ∧ o = []) →
       ¬(b ≠ [] ∧ ¬ goHasSuffix c.targetURL.path [c.targetURL.sep] = true ∧ o = []) →
       (∀ y ∈ xs, y.err = none) → x.err = some e → objsOf b o = xs ++ x :: ys →
       listInRoutine c now bk objsOf =
         xs.map (flatContent c b now) ++ [{ err := some (.backend e) }]) ∧
    (∀ bk xs x ys e, ¬(b = [] ∧ o = []) → x.err = some e → objsOf b o = xs ++ x :: ys →
       listRecursiveInRoutine c bk objsOf =
         listRecLoop c b xs ++ { err := some (.backend e) } :: listRecLoop c b ys) ∧
    (∀ e, b = [] → o = [] →
       listInRoutine c now (.error e) objsOf = [{ err := some (.backend e) }] ∧
       listRecursiveInRoutine c (.error e) objsOf = [{ err := some (.backend e) }]) := by
  refine ⟨?_, ?_, ?_⟩
  · intro bk xs x ys e hc1 hc2 hxs hx hsplit
    rw [listInRoutine_default now bk objsOf hres hc1 hc2, hsplit,
      listFlatLoop_stops_at_error c b now x ys hxs hx]
  · intro bk xs x ys e hc1 hx hsplit
    rw [listRecursiveInRoutine_default bk objsOf hres hc1, hsplit,
      listRecLoop_append, listRecLoop_error_head c b ys hx]
  · rintro e rfl rfl
    constructor
    · simp [listInRoutine, hres]
    · simp [listRecursiveInRoutine, hres]

/-- C1 witness instance: the flat listing stops after the error item
while the recursive listing, on the same stream, emits it inline and
continues with the following key. -/
theorem listing_error_policy_witness :
    listInRoutine ⟨⟨gs "play.minio.io", gs "/abc/", '/'⟩, false⟩ 0 (.ok [])
        (fun _ _ => [{ err := some 5 },
                     { key := gs "k", size := 1, lastModified := 2 }]) =
      [{ err := some (.backend 5) }] :=
  ((listing_error_policy ⟨⟨gs "play.minio.io", gs "/abc/", '/'⟩, false⟩
      (gs "abc") [] 0
      (fun _ _ => [{ err := some 5 },
                   { key := gs "k", size := 1, lastModified := 2 }])
      (by decide)).1 (.ok []) [] { err := some 5 }
      [{ key := gs "k", size := 1, lastModified := 2 }] 5
      (by decide) (by decide) (by decide) rfl (by decide)).trans (by decide)

/-- C1 counterexample: on the stream error-then-good-key, the flat
(non-recursive) path emits the error item and terminates — the good key
is never emitted — while the bucket-scoped recursive path emits the
error item and continues with the good key. The claim states the
opposite policy for the two paths. -/
theorem listing_error_policy_counterexample :
    listInRoutine ⟨⟨gs "play.minio.io", gs "/abc/", '/'⟩, false⟩ 0 (.ok [])
        (fun _ _ => [{ err := some 5 },
                     { key := gs "k", size := 1, lastModified := 2 }]) =
      [{ err := some (.backend 5) }] ∧
    listRecursiveInRoutine ⟨⟨gs "play.minio.io", gs "/abc/", '/'⟩, false⟩ (.ok [])
        (fun _ _ => [{ err := some 5 },
                     { key := gs "k", size := 1, lastModified := 2 }]) =
      [{ err := some (.backend 5) },
       { urlPath := gs "/abc/k", size := 1, time := 2, ctype := .file0664,
         err := none }] := by
  exact ⟨by decide, by decide⟩

/-! ### Stat outcome characterization -/

/-- The outcome, if any, that one listing entry forces in the Stat scan:
a backend error aborts with that error, a key equal to the requested
(trimmed) object yields an Object item, a key merely ending in the
separator yields a Directory item, and any other entry forces nothing. -/
def statTrigger (c : S3Client) (object : GoStr) (os : ObjectInfo) :
    Option (Except PErr ClientContent) :=
  match os.err with
  | some e => some (.error (.backend e))
  | none =>
    if os.key = object then
      some (.ok { urlPath := c.targetURL.path, size := os.size,
                  time := os.lastModified, ctype := .file0664 })
    else if goHasSuffix os.key [c.targetURL.sep] then
      some (.ok { urlPath := c.targetURL.path, ctype := .dir })
    else none

lemma statLoop_eq_findSome (c : S3Client) (object : GoStr) (l : List ObjectInfo) :
    statLoop c object l =
      (l.findSome? (statTrigger c object)).getD (.error .objectMissing) := by
  induction l with
  | nil => rfl
  | cons x rest ih =>
    cases hx : x.err with
    | some e => simp [statLoop, List.findSome?, statTrigger, hx]
    | none =>
      by_cases hk : x.key = object
      · simp [statLoop, List.findSome?, statTrigger, hx, hk]
      · by_cases hs : goHasSuffix x.key [c.targetURL.sep] = true
        · simp [statLoop, List.findSome?, statTrigger, hx, hk, hs]
        · simpa [statLoop, List.findSome?, statTrigger, hx, hk, hs] using ih

/-- C7 (amended). Outcomes of `Stat`: an empty bucket fails with
BucketNameEmpty; a non-empty bucket with empty object returns a
Directory item when the existence check reports true, fails with
BucketDoesNotExist when it reports false, and propagates the backend
error when the check itself fails; with a non-empty object the result is
decided by the first entry of the trimmed-key listing that triggers —
in entry order, a backend error propagates, an exact key match yields an
Object item, a separator-suffixed key yields a Directory item — and
ObjectMissing results only when no entry triggers. -/
theorem stat_outcomes (c : S3Client) (bkExists : Except BErr Bool)
    (listingOf : GoStr → List ObjectInfo) (b o : GoStr)
    (hres : url2BucketAndObject c = (b, o)) :
    (b = [] → Stat c bkExists listingOf = .error .bucketNameEmpty) ∧
    (b ≠ [] → o = [] →
       Stat c bkExists listingOf =
         match bkExists with
         | .error e => .error (.backend e)
         | .ok false => .error (.bucketDoesNotExist b)
         | .ok true => .ok { urlPath := c.targetURL.path, ctype := .dir }) ∧
    (b ≠ [] → o ≠ [] →
       Stat c bkExists listingOf =
         ((listingOf (goTrimRight o c.targetURL.sep)).findSome?
             (statTrigger c (goTrimRight o c.targetURL.sep))).getD
           (.error .objectMissing)) := by
  refine ⟨?_, ?_, ?_⟩
  · intro hb
    simp [Stat, hres, hb]
  · intro hb ho
    simp [Stat, hres, hb, ho]
  · intro hb ho
    simp only [Stat, hres]
    rw [if_neg hb, if_neg ho, statLoop_eq_findSome]

/-- C7 witness instance: stat of object key `dir` against a listing that
starts with the exact match returns the Object item carrying the backend
metadata. -/
theorem stat_outcomes_witness :
    Stat ⟨⟨gs "play.minio.io", gs "/abc/dir", '/'⟩, false⟩ (.ok true)
        (fun _ => [{ key := gs "dir", size := 4, lastModified := 21 },
                   { key := gs "dir/", size := 0, lastModified := 22 }]) =
      .ok { urlPath := gs "/abc/dir", size := 4, time := 21,
            ctype := .file0664, err := none } :=
  ((stat_outcomes ⟨⟨gs "play.minio.io", gs "/abc/dir", '/'⟩, false⟩ (.ok true)
      (fun _ => [{ key := gs "dir", size := 4, lastModified := 21 },
                 { key := gs "dir/", size := 0, lastModified := 22 }])
      (gs "abc") (gs "dir") (by decide)).2.2 (by decide) (by decide)).trans
    (by decide)

/-- C7 counterexample: stat of key `dir` against a listing containing
only `dirx/` returns a Directory item, because the code only tests for a
trailing separator; the claim requires the entry key to extend the
requested key with a separator (`dir/` as a prefix), which `dirx/` does
not, and therefore demands ObjectMissing. -/
theorem stat_outcomes_counterexample :
    Stat ⟨⟨gs "play.minio.io", gs "/abc/dir", '/'⟩, false⟩ (.ok true)
        (fun _ => [{ key := gs "dirx/", size := 0, lastModified := 22 }]) =
      .ok { urlPath := gs "/abc/dir", size := 0, time := 0,
            ctype := .dir, err := none } ∧
    (∀ x ∈ [({ key := gs "dirx/", size := 0, lastModified := 22 } : ObjectInfo)],
       x.key ≠ gs "dir" ∧ ¬ (gs "dir/").isPrefixOf x.key = true) ∧
    (Except.ok { urlPath := gs "/abc/dir", size := 0, time := 0,
                 ctype := .dir, err := none } : Except PErr ClientContent) ≠
      .error .objectMissing := by
  exact ⟨by decide, by decide, by decide⟩

/-! ### Helper lemmas: first-occurrence reasoning for the host markers -/

lemma goContains_cons (sub : GoStr) (c : Char) (rest : GoStr) :
    goContains sub (c :: rest) =
      (sub.isPrefixOf (c :: rest) || goContains sub rest) := by
  by_cases h : sub.isPrefixOf (c :: rest) = true
  · simp [goContains, goIndex, h]
  · simp only [Bool.not_eq_true] at h
    simp [goContains, goIndex, h, Option.isSome_map']

lemma goContains_of_prefix {sub s : GoStr} (h : sub.isPrefixOf s = true) :
    goContains sub s = true := by
  cases s <;> simp [goContains, goIndex, h]

/-- No strict tail of `sub` (dropping at least one leading character) is
a prefix of `w`: rules out occurrences of `sub` straddling the boundary
of an append whose right part is `w`. -/
def noTailPfx (sub w : GoStr) : Bool :=
  (List.range sub.length).all fun j => j = 0 || ! (sub.drop j).isPrefixOf w

lemma noTailPfx_spec {sub w : GoStr} (h : noTailPfx sub w = true) {j : Nat}
    (hj : j < sub.length) (hj0 : j ≠ 0) :
    (sub.drop j).isPrefixOf w = false := by
  have hx := List.all_eq_true.mp h j (List.mem_range.mpr hj)
  simp only [Bool.or_eq_true, decide_eq_true_eq, Bool.not_eq_true'] at hx
  rcases hx with h0 | hF
  · exact absurd h0 hj0
  · exact hF

lemma sub_not_prefix_append {sub v w : GoStr} (hv : goContains sub v = false)
    (hne : v ≠ []) (htail : noTailPfx sub w = true) :
    sub.isPrefixOf (v ++ w) = false := by
  by_contra hcon
  rw [Bool.not_eq_false] at hcon
  obtain ⟨t, ht⟩ := List.isPrefixOf_iff_prefix.mp hcon
  by_cases hlen : sub.length ≤ v.length
  · have hsubv : sub <+: v := by
      have htake : List.take sub.length (v ++ w) = List.take sub.length v := by
        rw [List.take_append_eq_append_take, Nat.sub_eq_zero_of_le hlen]
        simp
      have hsub : sub = List.take sub.length (v ++ w) := by
        rw [← ht, List.take_append_eq_append_take]
        simp
      rw [hsub, htake]
      exact List.take_prefix _ _
    have hcontra := goContains_of_prefix (List.isPrefixOf_iff_prefix.mpr hsubv)
    rw [hv] at hcontra
    cases hcontra
  · push_neg at hlen
    have hw : (sub.drop v.length).isPrefixOf w = true := by
      apply List.isPrefixOf_iff_prefix.mpr
      refine ⟨t, ?_⟩
      have hdrop := congrArg (List.drop v.length) ht
      rw [List.drop_left] at hdrop
      rw [← hdrop, List.drop_append_eq_append_drop,
        Nat.sub_eq_zero_of_le (Nat.le_of_lt hlen), List.drop_zero]
    have hvlen : v.length ≠ 0 := by
      simpa [List.length_eq_zero] using hne
    have hF := noTailPfx_spec htail hlen hvlen
    rw [hw] at hF
    cases hF

lemma goIndex_boundary {sub w : GoStr} (v : GoStr)
    (hv : goContains sub v = false)
    (hP : sub.isPrefixOf w = false)
    (htail : noTailPfx sub w = true)
    (hocc : sub.isPrefixOf (w.drop 1) = true) :
    goIndex sub (v ++ w) = some (v.length + 1) := by
  induction v with
  | nil =>
    cases w with
    | nil =>
      exfalso
      have : sub = [] := by
        cases sub with
        | nil => rfl
        | cons a as => simp [List.isPrefixOf] at hocc
      rw [this] at hP
      simp [List.isPrefixOf] at hP
    | cons a w' =>
      simp only [List.nil_append, goIndex, hP, if_false, List.drop_succ_cons,
        List.drop_zero] at *
      have : goIndex sub w' = some 0 := by
        cases w' <;> simp [goIndex, hocc]
      rw [this]
      rfl
  | cons x v' ih =>
    have hv' : goContains sub v' = false := by
      have := goContains_cons sub x v'
      rw [hv] at this
      exact (Bool.or_eq_false_iff.mp this.symm).2
    have hguard : sub.isPrefixOf ((x :: v') ++ w) = false :=
      sub_not_prefix_append hv (List.cons_ne_nil x v') htail
    rw [List.cons_append, goIndex]
    rw [List.cons_append] at hguard
    rw [hguard]
    simp only [Bool.false_eq_true, if_false, ih hv']
    rfl

lemma goIndex_none_append {sub w : GoStr} (v : GoStr)
    (hv : goContains sub v = false)
    (hw : goIndex sub w = none)
    (htail : noTailPfx sub w = true) :
    goIndex sub (v ++ w) = none := by
  induction v with
  | nil => simpa using hw
  | cons x v' ih =>
    have hv' : goContains sub v' = false := by
      have := goContains_cons sub x v'
      rw [hv] at this
      exact (Bool.or_eq_false_iff.mp this.symm).2
    have hguard : sub.isPrefixOf ((x :: v') ++ w) = false :=
      sub_not_prefix_append hv (List.cons_ne_nil x v') htail
    rw [List.cons_append, goIndex]
    rw [List.cons_append] at hguard
    rw [hguard]
    simp only [Bool.false_eq_true, if_false, ih hv']
    rfl

/-! ### Helper lemmas: glob classification and virtual-host resolution -/

lemma anySfx_true_of (f : GoStr → Bool) {a : GoStr} (t : GoStr)
    (ha : ∀ ch ∈ a, ch ≠ '/') (hf : f t = true) : anySfx f (a ++ t) = true := by
  induction a with
  | nil =>
    cases t with
    | nil => simpa [anySfx] using hf
    | cons c cs => simp [anySfx, hf]
  | cons c cs ih =>
    simp only [List.cons_append, anySfx, List.append_eq]
    rw [ih (fun ch h => ha ch (List.mem_cons_of_mem c h))]
    simp [ha c (List.mem_cons_self c cs)]

lemma isAmazon_decomp (bkt mid : GoStr) (h1 : ∀ ch ∈ bkt, ch ≠ '/')
    (h2 : ∀ ch ∈ mid, ch ≠ '/') :
    isAmazon (bkt ++ (gs ".s3" ++ (mid ++ gs ".amazonaws.com"))) = true := by
  show anySfx (globMatch (gs ".s3*.amazonaws.com"))
      (bkt ++ (gs ".s3" ++ (mid ++ gs ".amazonaws.com"))) = true
  apply anySfx_true_of _ _ h1
  show anySfx (globMatch (gs ".amazonaws.com")) (mid ++ gs ".amazonaws.com") = true
  apply anySfx_true_of _ _ h2
  decide

lemma isGoogle_decomp (bkt : GoStr) (h1 : ∀ ch ∈ bkt, ch ≠ '/') :
    isGoogle (bkt ++ gs ".storage.googleapis.com") = true := by
  show anySfx (globMatch (gs ".storage.googleapis.com"))
      (bkt ++ gs ".storage.googleapis.com") = true
  apply anySfx_true_of _ _ h1
  decide

lemma url2_virtual_of_s3_index {u : ClientURL} {n : Nat} {bucket : GoStr}
    (hidx : goIndex (gs "s3") u.host = some (n + 1))
    (htake : u.host.take n = bucket) :
    url2BucketAndObject ⟨u, true⟩ =
      url2BucketAndObject
        ⟨⟨u.host, [u.sep] ++ bucket ++ u.path, u.sep⟩, false⟩ := by
  have hpos : (0 : Int) < ((n + 1 : Nat) : Int) := by exact_mod_cast Nat.succ_pos n
  have htn : (((n + 1 : Nat) : Int) - 1).toNat = n := by omega
  simp [url2BucketAndObject, hidx, if_pos hpos, htn, htake]

lemma url2_virtual_of_goog_index {u : ClientURL} {n : Nat} {bucket : GoStr}
    (hs3 : goIndex (gs "s3") u.host = none)
    (hidx : goIndex (gs "storage.googleapis") u.host = some (n + 1))
    (htake : u.host.take n = bucket) :
    url2BucketAndObject ⟨u, true⟩ =
      url2BucketAndObject
        ⟨⟨u.host, [u.sep] ++ bucket ++ u.path, u.sep⟩, false⟩ := by
  have hpos : (0 : Int) < ((n + 1 : Nat) : Int) := by exact_mod_cast Nat.succ_pos n
  have htn : (((n + 1 : Nat) : Int) - 1).toNat = n := by omega
  simp [url2BucketAndObject, hs3, hidx, if_pos hpos, htn, htake]

/-- C2 (amended). For every virtual-host-style host built from a bucket
part that contains neither of the marker substrings searched by the
resolver (`s3` for the Amazon pattern, additionally `storage.googleapis`
for the Google pattern), resolving the client URL agrees with path-style
resolution of the equivalent path separator + bucket + original path;
the classification of such hosts as virtual-host style is part of the
statement. Buckets containing a marker substring are excluded — see the
counterexample. -/
theorem virtual_host_agrees_with_path_style (bkt mid p : GoStr) (sep : Char)
    (hbsep : ∀ ch ∈ bkt, ch ≠ '/') (hmsep : ∀ ch ∈ mid, ch ≠ '/')
    (hs3 : goContains (gs "s3") bkt = false)
    (hgm : goContains (gs "storage.googleapis") bkt = false) :
    (isVirtualHostStyle (bkt ++ (gs ".s3" ++ (mid ++ gs ".amazonaws.com"))) = true ∧
     url2BucketAndObject
         (mkS3Client ⟨bkt ++ (gs ".s3" ++ (mid ++ gs ".amazonaws.com")), p, sep⟩) =
       url2BucketAndObject
         ⟨⟨bkt ++ (gs ".s3" ++ (mid ++ gs ".amazonaws.com")),
           [sep] ++ bkt ++ p, sep⟩, false⟩) ∧
    (isVirtualHostStyle (bkt ++ gs ".storage.googleapis.com") = true ∧
     url2BucketAndObject
         (mkS3Client ⟨bkt ++ gs ".storage.googleapis.com", p, sep⟩) =
       url2BucketAndObject
         ⟨⟨bkt ++ gs ".storage.googleapis.com", [sep] ++ bkt ++ p, sep⟩,
          false⟩) := by
  have hvA : isVirtualHostStyle (bkt ++ (gs ".s3" ++ (mid ++ gs ".amazonaws.com"))) = true := by
    simp [isVirtualHostStyle, isAmazon_decomp bkt mid hbsep hmsep]
  have hvG : isVirtualHostStyle (bkt ++ gs ".storage.googleapis.com") = true := by
    simp [isVirtualHostStyle, isGoogle_decomp bkt hbsep]
  have hidxA : goIndex (gs "s3") (bkt ++ (gs ".s3" ++ (mid ++ gs ".amazonaws.com")))
      = some (bkt.length + 1) :=
    goIndex_boundary bkt hs3 rfl rfl (by cases mid <;> rfl)
  have hs3G : goIndex (gs "s3") (bkt ++ gs ".storage.googleapis.com") = none :=
    goIndex_none_append bkt hs3 (by decide) (by decide)
  have hidxG : goIndex (gs "storage.googleapis")
      (bkt ++ gs ".storage.googleapis.com") = some (bkt.length + 1) :=
    goIndex_boundary bkt hgm (by decide) (by decide) (by decide)
  refine ⟨⟨hvA, ?_⟩, ⟨hvG, ?_⟩⟩
  · have hmk : mkS3Client ⟨bkt ++ (gs ".s3" ++ (mid ++ gs ".amazonaws.com")), p, sep⟩
        = ⟨⟨bkt ++ (gs ".s3" ++ (mid ++ gs ".amazonaws.com")), p, sep⟩, true⟩ := by
      simp [mkS3Client, hvA]
    rw [hmk]
    exact url2_virtual_of_s3_index hidxA (List.take_left bkt _)
  · have hmk : mkS3Client ⟨bkt ++ gs ".storage.googleapis.com", p, sep⟩
        = ⟨⟨bkt ++ gs ".storage.googleapis.com", p, sep⟩, true⟩ := by
      simp [mkS3Client, hvG]
    rw [hmk]
    exact url2_virtual_of_goog_index hs3G hidxG (List.take_left bkt _)

/-- C2 witness instance: the host `bucket.s3.amazonaws.com` with path
`/obj` resolves exactly as the path-style path `/bucket/obj`. -/
theorem virtual_host_agrees_with_path_style_witness :
    url2BucketAndObject
        (mkS3Client ⟨gs "bucket.s3.amazonaws.com", gs "/obj", '/'⟩) =
      url2BucketAndObject
        ⟨⟨gs "bucket.s3.amazonaws.com", gs "/bucket/obj", '/'⟩, false⟩ :=
  ((virtual_host_agrees_with_path_style (gs "bucket") [] (gs "/obj") '/'
      (by decide) (by decide) (by decide) (by decide)).1).2

/-- C2 counterexample: the host `as3b.s3.amazonaws.com` is classified as
virtual-host style, but because the bucket part `as3b` contains the
marker `s3`, resolution recovers the empty bucket and object `obj`,
whereas path-style resolution of the equivalent `/as3b/obj` recovers
bucket `as3b` — the two resolutions disagree, refuting the claim over
all virtual-host inputs. -/
theorem virtual_host_agrees_with_path_style_counterexample :
    isVirtualHostStyle (gs "as3b.s3.amazonaws.com") = true ∧
    url2BucketAndObject
        (mkS3Client ⟨gs "as3b.s3.amazonaws.com", gs "/obj", '/'⟩) =
      ([], gs "obj") ∧
    url2BucketAndObject
        ⟨⟨gs "as3b.s3.amazonaws.com", gs "/as3b/obj", '/'⟩, false⟩ =
      (gs "as3b", gs "obj") ∧
    ([] : GoStr) ≠ gs "as3b" := by
  exact ⟨by decide, by decide, by decide, by decide⟩
